import Mathlib

/-!
# Starfield animation (`source/js/universe.js`)

A shallow embedding of the particle engine and of the two cancellable
callbacks of the controller (frame loop, resize debounce).

JavaScript numbers are modelled as exact rationals `ℚ`; `Math.random()` is a
stream of rationals that every call consumes one element of. The arithmetic of the
tail loop of `draw()` takes the rounding of each operation as a parameter, with the
binary64 rounding `fl64` as one instance.
-/

namespace Universe

/-! ## Random source and `Utils` -/

/-- The outcomes of the successive calls of `Math.random()`. -/
abbrev Rng := Nat → ℚ

/-- The stream left after `k` calls of `Math.random()`. -/
def Rng.drop (r : Rng) (k : Nat) : Rng := fun n => r (n + k)

/-- Every outcome of `Math.random()` lies in `[0, 1)`. -/
def Rng.InUnit (r : Rng) : Prop := ∀ n, 0 ≤ r n ∧ r n < 1

/-- The constant `CONFIG.performance.baseSpeed`. -/
def baseSpeed : ℚ := 5 / 100

/-- The function `Utils.random(min, max)` at the outcome `u` of `Math.random()`. -/
def random (min max : ℚ) (u : ℚ) : ℚ := u * (max - min) + min

/-- The function `Utils.chance(percentage)` at the outcome `u` of `Math.random()`. -/
def chance (percentage : ℚ) (u : ℚ) : Bool :=
  decide (((Int.floor (u * 1000) + 1 : ℤ) : ℚ) < 10 * percentage)

/-! ## Particle -/

/-- The fields of a `Particle` object. -/
structure Particle where
  canvasWidth : ℚ
  canvasHeight : ℚ
  allowComet : Bool
  isGiant : Bool
  isComet : Bool
  x : ℚ
  y : ℚ
  radius : ℚ
  dx : ℚ
  dy : ℚ
  opacity : ℚ
  opacityThreshold : ℚ
  opacityDelta : ℚ
  fadingIn : Bool
  fadingOut : Bool
deriving DecidableEq

/-- The method `Particle.reset()`: the draws are consumed in the order of the source;
`chance(10)` and the speed multiplier are drawn only when their guard holds. -/
def reset (p : Particle) (r : Rng) : Particle × Rng :=
  let isGiant := chance 3 (r 0)
  let r := r.drop 1
  let cometGuard := !isGiant && p.allowComet
  let isComet := cometGuard && chance 10 (r 0)
  let r := if cometGuard then r.drop 1 else r
  let x := random 0 (p.canvasWidth - 10) (r 0)
  let r := r.drop 1
  let y := random 0 p.canvasHeight (r 0)
  let r := r.drop 1
  let radius := random (11 / 10) (26 / 10) (r 0)
  let r := r.drop 1
  let speedMultiplier := if isComet then random 50 120 (r 0) else 1
  let r := if isComet then r.drop 1 else r
  let dx := random baseSpeed (6 * baseSpeed) (r 0)
    + (if isComet then baseSpeed * speedMultiplier else 0) + 2 * baseSpeed
  let r := r.drop 1
  let dy := -random baseSpeed (6 * baseSpeed) (r 0)
    - (if isComet then baseSpeed * speedMultiplier else 0)
  let r := r.drop 1
  let opacityThreshold := random (2 / 10) (if isComet then 6 / 10 else 1) (r 0)
  let r := r.drop 1
  let opacityDelta := random (5 / 10000) (2 / 1000) (r 0) + (if isComet then 1 / 1000 else 0)
  let r := r.drop 1
  ({ p with
      isGiant := isGiant, isComet := isComet, x := x, y := y, radius := radius,
      dx := dx, dy := dy, opacity := 0, opacityThreshold := opacityThreshold,
      opacityDelta := opacityDelta, fadingIn := true, fadingOut := false }, r)

/-- The object at the start of `new Particle(...)`, before `reset()` has
assigned the remaining fields. -/
def blank (canvasWidth canvasHeight : ℚ) (isInitialLoad : Bool) : Particle :=
  { canvasWidth := canvasWidth, canvasHeight := canvasHeight,
    allowComet := !isInitialLoad,
    isGiant := false, isComet := false, x := 0, y := 0, radius := 0, dx := 0, dy := 0,
    opacity := 0, opacityThreshold := 0, opacityDelta := 0,
    fadingIn := false, fadingOut := false }

/-- The constructor `new Particle(canvasWidth, canvasHeight, isInitialLoad)`. -/
def construct (canvasWidth canvasHeight : ℚ) (isInitialLoad : Bool) (r : Rng) :
    Particle × Rng :=
  reset (blank canvasWidth canvasHeight isInitialLoad) r

/-- First block of `update()`: the position update. -/
def move (p : Particle) : Particle :=
  { p with x := p.x + p.dx, y := p.y + p.dy }

/-- Second block of `update()`: the fade-in. -/
def fadeInStep (p : Particle) : Particle :=
  if p.fadingIn then
    let p := { p with opacity := p.opacity + p.opacityDelta }
    if p.opacity ≥ p.opacityThreshold then { p with fadingIn := false } else p
  else p

/-- The guard of the `reset()` call inside the fade-out block, read after
the decrement. -/
def leaves (p : Particle) : Bool :=
  decide (p.opacity ≤ 0) || decide (p.x > p.canvasWidth) || decide (p.y < 0)

/-- Third block of `update()`: the fade-out, with its `reset()`. -/
def fadeOutStep (p : Particle) (r : Rng) : Particle × Rng :=
  if p.fadingOut then
    let p := { p with opacity := p.opacity - p.opacityDelta / 2 }
    if leaves p then
      let q := reset p r
      ({ q.1 with fadingOut := false }, q.2)
    else (p, r)
  else (p, r)

/-- Fourth block of `update()`: the fade-out trigger. -/
def triggerStep (p : Particle) : Particle :=
  if !p.fadingOut &&
      (decide (p.x > p.canvasWidth - p.canvasWidth / 4) || decide (p.y < 0)) then
    { p with fadingOut := true }
  else p

/-- The method `Particle.update()`. -/
def update (p : Particle) (r : Rng) : Particle × Rng :=
  let q := fadeOutStep (fadeInStep (move p)) r
  (triggerStep q.1, q.2)

/-- Whether this `update()` tick reaches the `reset()` call. -/
def updateResets (p : Particle) : Bool :=
  let q := fadeInStep (move p)
  q.fadingOut && leaves { q with opacity := q.opacity - q.opacityDelta / 2 }

/-- What can happen to a particle after its construction: a frame tick, or
the delayed callback of `createParticles` setting `allowComet = true`. -/
inductive PEvent where
  | tick
  | enableComet
deriving DecidableEq

/-- One event applied to a particle. -/
def pstep (s : Particle × Rng) : PEvent → Particle × Rng
  | .tick => update s.1 s.2
  | .enableComet => ({ s.1 with allowComet := true }, s.2)

/-- A sequence of events applied in order. -/
def prun (s : Particle × Rng) (evs : List PEvent) : Particle × Rng :=
  evs.foldl pstep s

/-- The same stream with outcome `u` at position `i`. -/
def Rng.set (r : Rng) (i : Nat) (u : ℚ) : Rng := fun n => if n = i then u else r n

/-- The stream whose outcomes are all `u`. -/
def Rng.const (u : ℚ) : Rng := fun _ => u

/-- The opacity invariant kept by `reset()` and `update()`. -/
def OpacityInv (p : Particle) : Prop :=
  0 < p.opacityDelta ∧ 0 ≤ p.opacity ∧
  (p.fadingIn = true → p.opacity < p.opacityThreshold) ∧
  p.opacity < p.opacityThreshold + p.opacityDelta

/-- The kind invariant: a giant is never a comet. -/
def KindInv (p : Particle) : Prop := ¬ (p.isGiant = true ∧ p.isComet = true)

/-- The kind of a particle, read the way `draw()` branches on the two flags. -/
inductive Kind where
  | giant
  | comet
  | normal
deriving DecidableEq

/-- The branch `draw()` takes. -/
def kind (p : Particle) : Kind :=
  if p.isGiant then Kind.giant else if p.isComet then Kind.comet else Kind.normal

/-- The number of the 1000 equally likely values `k = floor(Math.random() * 1000)`
for which `Utils.chance(percentage)` is true. -/
def chanceCount (percentage : ℚ) : Nat :=
  ((List.range 1000).filter (fun k => chance percentage ((k : ℚ) / 1000))).length

/-! ## Binary64 rounding -/

/-- Rounding of a rational to the nearest integer, ties to the even one. -/
def roundHalfEven (q : ℚ) : ℤ :=
  if q - Int.floor q < 1 / 2 then Int.floor q
  else if 1 / 2 < q - Int.floor q then Int.floor q + 1
  else if Int.floor q % 2 = 0 then Int.floor q else Int.floor q + 1

/-- Halving `n` until it is below 2, at most `fuel` times: the number of halvings. -/
def halvings : Nat → Nat → Nat
  | 0, _ => 0
  | fuel + 1, n => if n < 2 then 0 else halvings fuel (n / 2) + 1

/-- The position of the leading bit of `n ≥ 1`: `2^(ilog2 n) ≤ n < 2^(ilog2 n + 1)`. -/
def ilog2 (n : Nat) : Nat := halvings n n

/-- The exponent `e` of the last place of a positive rational `a` in a 53-bit
significand: `2^52 ≤ a / 2^e < 2^53`. -/
def lastPlace (a : ℚ) : ℤ :=
  if (2 : ℚ) ^ (53 : ℕ) ≤
      a / (2 : ℚ) ^ ((ilog2 a.num.natAbs : ℤ) - (ilog2 a.den : ℤ) - 53) then
    (ilog2 a.num.natAbs : ℤ) - (ilog2 a.den : ℤ) - 53 + 1
  else (ilog2 a.num.natAbs : ℤ) - (ilog2 a.den : ℤ) - 53

/-- Rounding to binary64 (53-bit significand, nearest, ties to even), without
overflow and underflow. -/
def fl64 (x : ℚ) : ℚ :=
  if x = 0 then 0
  else (if x < 0 then -1 else 1) *
    ((roundHalfEven (|x| / (2 : ℚ) ^ lastPlace |x|) : ℤ) : ℚ) * (2 : ℚ) ^ lastPlace |x|

/-! ## Drawing -/

/-- The colour `CONFIG.colors.giant`. -/
def colorGiant : String := "180,184,240"

/-- The colour `CONFIG.colors.comet`. -/
def colorComet : String := "226,225,224"

/-- The colour `CONFIG.colors.normal`. -/
def colorNormal : String := "226,225,142"

/-- The calls `draw()` makes on the 2D context. `fillStyle rgb a` is the assignment of
the template string built from the colour `rgb` and the alpha `a`;
`arc x y radius` is `ctx.arc(x, y, radius, 0, Math.PI * 2)`, whose two angles are the
same constants at both call sites. -/
inductive CanvasCall where
  | beginPath
  | fillStyle (rgb : String) (alpha : ℚ)
  | arc (x y radius : ℚ)
  | fillRect (x y w h : ℚ)
  | closePath
  | fill
deriving DecidableEq

/-- Whether a call is a `fillRect`. -/
def CanvasCall.isFillRect : CanvasCall → Bool
  | .fillRect _ _ _ _ => true
  | _ => false

/-- The value `this.opacity - (this.opacity / 20) * i` of the tail loop, every
operation rounded by `rnd`. -/
def tailOpacity (rnd : ℚ → ℚ) (p : Particle) (i : Nat) : ℚ :=
  rnd (p.opacity - rnd (rnd (p.opacity / 20) * i))

/-- The tail square of round `i`: the fill style and the `fillRect` call of the loop
body, every operation rounded by `rnd`. -/
def tailSquare (rnd : ℚ → ℚ) (p : Particle) (i : Nat) : List CanvasCall :=
  [CanvasCall.fillStyle colorComet (tailOpacity rnd p i),
   CanvasCall.fillRect (rnd (p.x - rnd (rnd (p.dx / 4) * i)))
     (rnd (rnd (p.y - rnd (rnd (p.dy / 4) * i)) - 2)) 2 2]

/-- One round of the tail loop of `draw()`. -/
def tailStep (rnd : ℚ → ℚ) (p : Particle) (i : Nat) : List CanvasCall :=
  if tailOpacity rnd p i > 0 then tailSquare rnd p i else []

/-- The method `Particle.draw(ctx)`: the particle afterwards and the calls appended to the
context. The arithmetic of the tail loop rounds every operation by `rnd`: the
identity gives exact arithmetic, `fl64` the binary64 arithmetic of JavaScript. -/
def draw (rnd : ℚ → ℚ) (p : Particle) (ctx : List CanvasCall) : Particle × List CanvasCall :=
  let body :=
    if p.isGiant then
      [CanvasCall.fillStyle colorGiant p.opacity, CanvasCall.arc p.x p.y 2]
    else if p.isComet then
      [CanvasCall.fillStyle colorComet p.opacity, CanvasCall.arc p.x p.y (3 / 2)]
        ++ (List.range 30).flatMap (tailStep rnd p)
    else
      [CanvasCall.fillStyle colorNormal p.opacity, CanvasCall.fillRect p.x p.y p.radius p.radius]
  (p, ctx ++ [CanvasCall.beginPath] ++ body ++ [CanvasCall.closePath, CanvasCall.fill])

/-- The comet of the end-to-end example: `dx = 1`, `dy = -1` at `(100, 100)` with
opacity `0.5`. -/
def exampleComet : Particle :=
  { canvasWidth := 1000, canvasHeight := 800, allowComet := true,
    isGiant := false, isComet := true, x := 100, y := 100, radius := 2,
    dx := 1, dy := -1, opacity := 1 / 2, opacityThreshold := 1 / 2,
    opacityDelta := 1 / 500, fadingIn := false, fadingOut := false }

/-- The same comet with the binary64 number `0.055` as opacity. -/
def faintComet : Particle :=
  { exampleComet with opacity := 7926335344172073 / 144115188075855872 }

/-! ## Frame loop -/

/-- The scheduling state of `UniverseAnimation` together with the frame clock of the
page. `pending` holds the handles of the frame requests the browser still has to
serve, oldest first; `lastHandle` is the browser's handle counter;
`callbackRuns` counts the runs of `animate` made by the frame clock. -/
structure Loop where
  animationId : Option Nat
  isVisible : Bool
  pending : List Nat
  lastHandle : Nat
  callbackRuns : Nat
deriving DecidableEq

/-- Truthiness of `this.animationId`: `null` and `0` are falsy. -/
def truthy : Option Nat → Bool
  | none => false
  | some n => n != 0

/-- The call `requestAnimationFrame(animate)`: the browser increments its counter, queues
the request and returns the new handle. -/
def requestAnimationFrame (s : Loop) : Nat × Loop :=
  (s.lastHandle + 1,
    { s with lastHandle := s.lastHandle + 1, pending := s.pending ++ [s.lastHandle + 1] })

/-- The call `cancelAnimationFrame(id)`. -/
def cancelAnimationFrame (s : Loop) (id : Nat) : Loop :=
  { s with pending := s.pending.filter (fun h => h != id) }

/-- The closure `animate` of `start()`: `render()` (which never touches the
scheduling state), then the request of the next frame. -/
def animate (s : Loop) : Loop :=
  let q := requestAnimationFrame s
  { q.2 with animationId := some q.1 }

/-- The method `UniverseAnimation.start()`. -/
def start (s : Loop) : Loop :=
  if truthy s.animationId then s else animate s

/-- The method `UniverseAnimation.stop()`. -/
def stop (s : Loop) : Loop :=
  match s.animationId with
  | some id => if truthy (some id) then { cancelAnimationFrame s id with animationId := none } else s
  | none => s

/-- The events of the frame loop. -/
inductive LoopEvent where
  | hidden
  | visible
  | frame
deriving DecidableEq

/-- One event. `hidden` and `visible` are the `visibilitychange` listener with
`document.hidden` true and false; `frame` is the frame clock serving every request
pending at that moment by running its callback `animate`. -/
def lstep (s : Loop) : LoopEvent → Loop
  | .hidden => { stop s with isVisible := false }
  | .visible => start { s with isVisible := true }
  | .frame =>
    s.pending.foldl (fun t _ => animate { t with callbackRuns := t.callbackRuns + 1 })
      { s with pending := [] }

/-- A sequence of events. -/
def lrun (s : Loop) (evs : List LoopEvent) : Loop := evs.foldl lstep s

/-- The state after the constructor and `init()`, whose last statement is `start()`;
`h0` is the value of the browser's handle counter at that time. -/
def initLoop (h0 : Nat) : Loop :=
  start { animationId := none, isVisible := true, pending := [], lastHandle := h0,
          callbackRuns := 0 }

/-- The scheduling invariant: the pending requests are exactly the one named by
`animationId`, if any, and that handle is not `0`. -/
def LoopInv (s : Loop) : Prop :=
  (s.animationId = none ∧ s.pending = []) ∨
  (∃ h, h ≠ 0 ∧ s.animationId = some h ∧ s.pending = [h])

/-! ## Debounce -/

/-- A timer created by `setTimeout(later, wait)`: its handle, the time at which it is
due, and the arguments captured by the closure `later`. -/
structure Timer (α : Type) where
  id : Nat
  due : Nat
  args : α

/-- The state around one function returned by `Utils.debounce(func, wait)`: the
clock in milliseconds, the closure variable `timeout` (`none` while undefined), the
active timers of the browser in creation order, the browser's handle counter, and the
calls of `func` made so far, each with its time and arguments. -/
structure Debounce (α : Type) where
  now : Nat
  timeout : Option Nat
  timers : List (Timer α)
  lastId : Nat
  calls : List (Nat × α)

/-- The call `clearTimeout(timeout)`; clearing `undefined` or a dead handle does nothing. -/
def clearTimeout {α : Type} (s : Debounce α) : Debounce α :=
  match s.timeout with
  | none => s
  | some id => { s with timers := s.timers.filter (fun t => t.id != id) }

/-- The statement `timeout = setTimeout(later, wait)` with `later` closing over `args`. -/
def setTimeout {α : Type} (wait : Nat) (args : α) (s : Debounce α) : Debounce α :=
  { s with lastId := s.lastId + 1, timeout := some (s.lastId + 1),
           timers := s.timers ++ [{ id := s.lastId + 1, due := s.now + wait, args := args }] }

/-- The body of `executedFunction(...args)`. -/
def executedFunction {α : Type} (wait : Nat) (args : α) (s : Debounce α) : Debounce α :=
  setTimeout wait args (clearTimeout s)

/-- The closure `later`: `clearTimeout(timeout); func(...args)`. -/
def later {α : Type} (args : α) (s : Debounce α) : Debounce α :=
  let s := clearTimeout s
  { s with calls := s.calls ++ [(s.now, args)] }

/-- The browser serving timers up to time `t`: while some timer is due, the oldest
such timer is removed and its callback runs at its due time; `fuel` bounds the
number of timers served. All timers have the same delay, so creation order is due
order. -/
def fire {α : Type} : Nat → Nat → Debounce α → Debounce α
  | 0, t, s => { s with now := t }
  | fuel + 1, t, s =>
    match s.timers.find? (fun tm => decide (tm.due ≤ t)) with
    | none => { s with now := t }
    | some tm =>
      fire fuel t
        (later tm.args { s with now := tm.due, timers := s.timers.filter (fun u => u.id != tm.id) })

/-- The clock advancing to time `t`; callbacks create no timers, so one round per
active timer serves them all. -/
def advance {α : Type} (t : Nat) (s : Debounce α) : Debounce α :=
  fire s.timers.length t s

/-- A call of the debounced function `gap` milliseconds after the previous event. -/
def callAfter {α : Type} (wait : Nat) (s : Debounce α) (c : Nat × α) : Debounce α :=
  executedFunction wait c.2 (advance (s.now + c.1) s)

/-- The state right after `Utils.debounce(func, wait)` returned, at time `t0`. -/
def debounce (α : Type) (t0 id0 : Nat) : Debounce α :=
  { now := t0, timeout := none, timers := [], lastId := id0, calls := [] }

/-- The canvas sizes set by the resize handler `setupCanvas(); createParticles()`:
each run reads `window.innerWidth` and `window.innerHeight` at the time it runs. -/
def recreations {α : Type} (viewport : Nat → Nat × Nat) (s : Debounce α) : List (Nat × Nat) :=
  s.calls.map (fun c => viewport c.1)

/-- The arguments of the last call of a burst that starts with arguments `a` and goes
on with the calls `rest`. -/
def lastArgs {α : Type} (a : α) (rest : List (Nat × α)) : α :=
  rest.foldl (fun _ c => c.2) a

/-- The state between two calls of a burst: nothing has run and the only active
timer is the one of the latest call. -/
def Armed {α : Type} (wait : Nat) (a : α) (s : Debounce α) : Prop :=
  s.calls = [] ∧ ∃ id, s.timeout = some id ∧
    s.timers = [{ id := id, due := s.now + wait, args := a }]

/-! ## Inputs used in witnesses and counterexamples -/

/-- Stream used to exhibit a fade-in overshoot: threshold draw `0`, all other draws
`3/5`. -/
def overshootRng : Rng := Rng.set (Rng.const (3 / 5)) 6 0

/-- Stream placing the new particle in the right-most quarter: position draw `9/10`,
all other draws `3/5`. -/
def rightQuarterRng : Rng := Rng.set (Rng.const (3 / 5)) 1 (9 / 10)

/-- Stream for a particle that ends its fade-in on the tick on which it enters the
right-most quarter: x draw `7073/9900`, threshold draw `0`, other draws `3/5`. -/
def steadyRng : Rng := Rng.set overshootRng 1 (7073 / 9900)

/-- Stream under which the particle leaves through the top edge at once and is
respawned in the right-most quarter: first y draw `0`, second x draw `9/10`, other
draws `3/5`. -/
def respawnRng : Rng := Rng.set (Rng.set (Rng.const (3 / 5)) 2 0) 9 (9 / 10)

/-- A particle that is fading out, is not fading in and has opacity exactly `0`. -/
def zeroSteady : Particle :=
  { canvasWidth := 1000, canvasHeight := 800, allowComet := true,
    isGiant := false, isComet := false, x := 500, y := 400, radius := 2,
    dx := 3 / 10, dy := -1 / 5, opacity := 0, opacityThreshold := 1 / 2,
    opacityDelta := 1 / 1000, fadingIn := false, fadingOut := true }

/-- The nine resize events that follow a first one, each 20 ms after the event before
it, the `i`-th carrying the argument `i`. -/
def resizeBurst : List (Nat × Nat) :=
  [(20, 1), (20, 2), (20, 3), (20, 4), (20, 5), (20, 6), (20, 7), (20, 8), (20, 9)]

/-! ## Facts about `reset()` -/

theorem Rng.InUnit.drop {r : Rng} (h : r.InUnit) (k : Nat) : (r.drop k).InUnit :=
  fun n => h (n + k)

/-- The stream after `reset()` is a suffix of the stream before it. -/
theorem reset_rng (p : Particle) (r : Rng) : ∃ k, (reset p r).2 = r.drop k := by
  simp only [reset]
  cases chance 3 (r 0) <;> cases p.allowComet <;> cases chance 10 (r.drop 1 0) <;>
    simp [Rng.drop] <;> first | exact ⟨8, rfl⟩ | exact ⟨9, rfl⟩ | exact ⟨10, rfl⟩

theorem reset_inUnit (p : Particle) {r : Rng} (h : r.InUnit) : (reset p r).2.InUnit := by
  obtain ⟨k, hk⟩ := reset_rng p r
  rw [hk]
  exact h.drop k

/-- What `reset()` leaves alone and what it sets to constants. -/
theorem reset_const (p : Particle) (r : Rng) :
    (reset p r).1.canvasWidth = p.canvasWidth ∧ (reset p r).1.canvasHeight = p.canvasHeight ∧
    (reset p r).1.allowComet = p.allowComet ∧ (reset p r).1.opacity = 0 ∧
    (reset p r).1.fadingIn = true ∧ (reset p r).1.fadingOut = false :=
  ⟨rfl, rfl, rfl, rfl, rfl, rfl⟩

/-- The kind flags drawn by `reset()`. -/
theorem reset_kind (p : Particle) (r : Rng) :
    (reset p r).1.isGiant = chance 3 (r 0) ∧
    (reset p r).1.isComet = (!chance 3 (r 0) && p.allowComet && chance 10 (r 1)) :=
  ⟨rfl, rfl⟩

/-- Ranges of the numbers drawn by `reset()`. -/
theorem reset_ranges (p : Particle) {r : Rng} (h : r.InUnit) :
    0 < (reset p r).1.dx ∧ (reset p r).1.dy < 0 ∧
    1 / 5 ≤ (reset p r).1.opacityThreshold ∧ (reset p r).1.opacityThreshold < 1 ∧
    1 / 2000 ≤ (reset p r).1.opacityDelta ∧ (reset p r).1.opacityDelta < 3 / 1000 := by
  have hb : ∀ n, 0 ≤ r n ∧ r n < 1 := h
  cases hg : chance 3 (r 0) <;> cases ha : p.allowComet <;> cases hc : chance 10 (r 1) <;>
    simp only [reset, hg, ha, hc, random, baseSpeed, Rng.drop, Bool.not_true, Bool.not_false,
      Bool.and_true, Bool.and_false, Bool.false_and, Bool.true_and, if_true, if_false,
      Bool.false_eq_true, zero_add] <;>
    norm_num <;>
    refine ⟨?_, ?_, ?_, ?_, ?_, ?_⟩ <;>
    linarith [hb 1, hb 2, hb 3, hb 4, hb 5, hb 6, hb 7, hb 8, hb 9, hb 0]

/-! ## Invariants of the particle lifecycle -/

theorem opacityInv_reset (p : Particle) {r : Rng} (h : r.InUnit) : OpacityInv (reset p r).1 := by
  obtain ⟨_, _, hth, _, hdl, _⟩ := reset_ranges p h
  obtain ⟨_, _, _, hop, _, _⟩ := reset_const p r
  refine ⟨by linarith, by rw [hop], fun _ => by rw [hop]; linarith, by rw [hop]; linarith⟩

theorem opacityInv_fadeIn {p : Particle} (hp : OpacityInv p) : OpacityInv (fadeInStep (move p)) := by
  obtain ⟨h1, h2, h3, h4⟩ := hp
  unfold fadeInStep move
  dsimp only
  by_cases hin : p.fadingIn = true
  · have h5 := h3 hin
    rw [if_pos hin]
    by_cases hge : p.opacity + p.opacityDelta ≥ p.opacityThreshold
    · rw [if_pos hge]
      exact ⟨h1, by show 0 ≤ p.opacity + p.opacityDelta; linarith, fun hf => by simp at hf,
        by show p.opacity + p.opacityDelta < p.opacityThreshold + p.opacityDelta; linarith⟩
    · rw [if_neg hge]
      exact ⟨h1, by show 0 ≤ p.opacity + p.opacityDelta; linarith,
        fun _ => by show p.opacity + p.opacityDelta < p.opacityThreshold; linarith,
        by show p.opacity + p.opacityDelta < p.opacityThreshold + p.opacityDelta; linarith⟩
  · rw [if_neg hin]
    exact ⟨h1, h2, fun hf => absurd hf hin, h4⟩

theorem opacityInv_fadeOut {p : Particle} (hp : OpacityInv p) {r : Rng} (h : r.InUnit) :
    OpacityInv (fadeOutStep p r).1 := by
  obtain ⟨h1, h2, h3, h4⟩ := hp
  unfold fadeOutStep
  dsimp only
  by_cases hout : p.fadingOut = true
  · rw [if_pos hout]
    split
    · exact opacityInv_reset _ h
    · rename_i hl
      simp only [leaves, Bool.or_eq_true, decide_eq_true_eq, not_or, not_le] at hl
      obtain ⟨⟨hl1, _⟩, _⟩ := hl
      exact ⟨h1, le_of_lt hl1,
        fun hf => by show p.opacity - p.opacityDelta / 2 < p.opacityThreshold; linarith [h3 hf],
        by show p.opacity - p.opacityDelta / 2 < p.opacityThreshold + p.opacityDelta; linarith⟩
  · rw [if_neg hout]
    exact ⟨h1, h2, h3, h4⟩

theorem opacityInv_trigger {p : Particle} (hp : OpacityInv p) : OpacityInv (triggerStep p) := by
  unfold triggerStep
  split
  · exact hp
  · exact hp

theorem opacityInv_update {p : Particle} (hp : OpacityInv p) {r : Rng} (h : r.InUnit) :
    OpacityInv (update p r).1 :=
  opacityInv_trigger (opacityInv_fadeOut (opacityInv_fadeIn hp) h)

theorem update_inUnit (p : Particle) {r : Rng} (h : r.InUnit) : (update p r).2.InUnit := by
  unfold update fadeOutStep
  dsimp only
  split
  · split
    · exact reset_inUnit _ h
    · exact h
  · exact h

theorem opacityInv_prun (evs : List PEvent) (s : Particle × Rng)
    (hp : OpacityInv s.1) (h : s.2.InUnit) :
    OpacityInv (prun s evs).1 ∧ (prun s evs).2.InUnit := by
  induction evs generalizing s with
  | nil => exact ⟨hp, h⟩
  | cons e evs ih =>
    cases e with
    | tick => exact ih (update s.1 s.2) (opacityInv_update hp h) (update_inUnit _ h)
    | enableComet => exact ih ({ s.1 with allowComet := true }, s.2) hp h

theorem kindInv_reset (p : Particle) (r : Rng) : KindInv (reset p r).1 := by
  obtain ⟨hg, hc⟩ := reset_kind p r
  unfold KindInv
  rw [hg, hc]
  cases chance 3 (r 0) <;> simp

theorem kindInv_update {p : Particle} (hp : KindInv p) (r : Rng) : KindInv (update p r).1 := by
  have hmove : KindInv (fadeInStep (move p)) := by
    unfold fadeInStep move
    dsimp only
    split
    · split
      · exact hp
      · exact hp
    · exact hp
  have hout : KindInv (fadeOutStep (fadeInStep (move p)) r).1 := by
    unfold fadeOutStep
    dsimp only
    split
    · split
      · exact kindInv_reset _ r
      · exact hmove
    · exact hmove
  unfold update triggerStep
  dsimp only
  split
  · exact hout
  · exact hout

theorem kindInv_prun (evs : List PEvent) (s : Particle × Rng) (hp : KindInv s.1) :
    KindInv (prun s evs).1 := by
  induction evs generalizing s with
  | nil => exact hp
  | cons e evs ih =>
    cases e with
    | tick => exact ih (update s.1 s.2) (kindInv_update hp s.2)
    | enableComet => exact ih ({ s.1 with allowComet := true }, s.2) hp

theorem overshootRng_inUnit : overshootRng.InUnit := by
  intro n
  unfold overshootRng Rng.set Rng.const
  split <;> norm_num

theorem steadyRng_inUnit : steadyRng.InUnit := by
  intro n
  unfold steadyRng Rng.set
  split
  · norm_num
  · exact overshootRng_inUnit n

theorem const_inUnit : (Rng.const (1 / 2)).InUnit := by
  intro n
  unfold Rng.const
  norm_num

/-- The construction is a `reset()`, so both invariants hold after it. -/
theorem opacityInv_reach (cw ch : ℚ) (isInitialLoad : Bool) {r : Rng} (h : r.InUnit)
    (evs : List PEvent) :
    OpacityInv (prun (construct cw ch isInitialLoad r) evs).1 :=
  (opacityInv_prun evs (construct cw ch isInitialLoad r) (opacityInv_reset _ h)
    (reset_inUnit _ h)).1

/-- The flag `updateResets` is the guard under which `update()` calls `reset()`: when
it is false the tick draws no random number, when it is true the tick ends with the
fade-out trigger applied to the freshly reset particle. -/
theorem update_by_resets (p : Particle) (r : Rng) :
    (updateResets p = false → (update p r).2 = r) ∧
    (updateResets p = true →
      update p r =
        (triggerStep { (reset { fadeInStep (move p) with
            opacity := (fadeInStep (move p)).opacity - (fadeInStep (move p)).opacityDelta / 2 }
            r).1 with fadingOut := false },
         (reset { fadeInStep (move p) with
            opacity := (fadeInStep (move p)).opacity - (fadeInStep (move p)).opacityDelta / 2 }
            r).2)) := by
  unfold updateResets update fadeOutStep
  dsimp only
  split
  · rename_i h1
    split
    · rename_i h2
      simp only [h2]
      simp [h1]
    · rename_i h2
      simp only [h2]
      simp [h1]
  · rename_i h1
    simp [h1]

/-- A tick of a particle that is fading out, is not fading in and is not reset
lowers opacity by half of `opacityDelta`. -/
theorem update_fadeOut_only (p : Particle) (r : Rng)
    (hout : p.fadingOut = true) (hin : p.fadingIn = false) (hres : updateResets p = false) :
    (update p r).1.opacity = p.opacity - p.opacityDelta / 2 := by
  simp only [updateResets, fadeInStep, move, hin, hout, Bool.false_eq_true, if_false,
    Bool.true_and] at hres
  simp [update, fadeOutStep, fadeInStep, move, triggerStep, hin, hout, hres]

theorem triggerStep_proj (q : Particle) :
    (triggerStep q).fadingIn = q.fadingIn ∧ (triggerStep q).opacity = q.opacity ∧
    (triggerStep q).x = q.x ∧ (triggerStep q).y = q.y ∧
    (triggerStep q).canvasWidth = q.canvasWidth := by
  unfold triggerStep
  split <;> exact ⟨rfl, rfl, rfl, rfl, rfl⟩

theorem triggerStep_fadingOut (q : Particle) :
    (triggerStep q).fadingOut =
      (q.fadingOut || (decide (q.x > q.canvasWidth - q.canvasWidth / 4) || decide (q.y < 0))) := by
  unfold triggerStep
  cases hq : q.fadingOut
  · cases hc : (decide (q.x > q.canvasWidth - q.canvasWidth / 4) || decide (q.y < 0)) <;> simp [hq]
  · simp [hq]

/-! ## Rounding and the tail loop -/

theorem halvings_spec (fuel n : Nat) (hf : n ≤ fuel) (hn : n ≠ 0) :
    2 ^ halvings fuel n ≤ n ∧ n < 2 ^ (halvings fuel n + 1) := by
  induction fuel generalizing n with
  | zero => omega
  | succ fuel ih =>
    unfold halvings
    by_cases h2 : n < 2
    · rw [if_pos h2]
      constructor <;> simp <;> omega
    · rw [if_neg h2]
      have hd : n / 2 ≤ fuel := by omega
      have hz : n / 2 ≠ 0 := by omega
      obtain ⟨h3, h4⟩ := ih (n / 2) hd hz
      constructor
      · rw [pow_succ]
        omega
      · rw [pow_succ]
        omega

theorem ilog2_spec (n : Nat) (hn : n ≠ 0) : 2 ^ ilog2 n ≤ n ∧ n < 2 ^ (ilog2 n + 1) :=
  halvings_spec n n (le_refl n) hn

theorem roundHalfEven_err (q : ℚ) : |((roundHalfEven q : ℤ) : ℚ) - q| ≤ 1 / 2 := by
  have h1 : (Int.floor q : ℚ) ≤ q := Int.floor_le q
  have h2 : q < (Int.floor q : ℚ) + 1 := Int.lt_floor_add_one q
  unfold roundHalfEven
  rw [abs_le]
  split
  · constructor <;> linarith
  · split
    · push_cast
      constructor <;> linarith
    · split
      · constructor <;> linarith
      · push_cast
        constructor <;> linarith

theorem lastPlace_spec (a : ℚ) (ha : 0 < a) :
    (2 : ℚ) ^ (52 : ℕ) ≤ a / (2 : ℚ) ^ lastPlace a := by
  have hnum : 0 < a.num := Rat.num_pos.mpr ha
  have hn0 : a.num.natAbs ≠ 0 := by
    intro h
    have := Int.natAbs_eq_zero.mp h
    omega
  have hd0 : a.den ≠ 0 := a.den_nz
  obtain ⟨hn1, _⟩ := ilog2_spec a.num.natAbs hn0
  obtain ⟨_, hd2⟩ := ilog2_spec a.den hd0
  have hnq : ((2 : ℚ) ^ ilog2 a.num.natAbs) ≤ (a.num : ℚ) := by
    have e : (a.num : ℚ) = ((a.num.natAbs : ℕ) : ℚ) := by
      have h : ((a.num.natAbs : ℕ) : ℤ) = a.num := Int.natAbs_of_nonneg (le_of_lt hnum)
      calc (a.num : ℚ) = (((a.num.natAbs : ℕ) : ℤ) : ℚ) := by rw [h]
        _ = ((a.num.natAbs : ℕ) : ℚ) := Int.cast_natCast _
    rw [e]
    exact_mod_cast hn1
  have hdq : (a.den : ℚ) < (2 : ℚ) ^ (ilog2 a.den + 1) := by exact_mod_cast hd2
  have hdpos : (0 : ℚ) < a.den := by exact_mod_cast Nat.pos_of_ne_zero hd0
  have hA : a = (a.num : ℚ) / (a.den : ℚ) := (Rat.num_div_den a).symm
  have hbase : (2 : ℚ) ^ (52 : ℕ) ≤
      a / (2 : ℚ) ^ ((ilog2 a.num.natAbs : ℤ) - (ilog2 a.den : ℤ) - 53) := by
    have hp : (2 : ℚ) ^ ((ilog2 a.num.natAbs : ℤ) - (ilog2 a.den : ℤ) - 53) =
        (2 : ℚ) ^ ilog2 a.num.natAbs / ((2 : ℚ) ^ ilog2 a.den * (2 : ℚ) ^ (53 : ℕ)) := by
      rw [zpow_sub₀ (by norm_num), zpow_sub₀ (by norm_num), zpow_natCast, zpow_natCast]
      have : ((2 : ℚ) ^ (53 : ℤ)) = (2 : ℚ) ^ (53 : ℕ) := by norm_cast
      rw [this, div_div]
    rw [hp]
    have hL : (0 : ℚ) < (2 : ℚ) ^ ilog2 a.num.natAbs := by positivity
    have hD : (0 : ℚ) < (2 : ℚ) ^ ilog2 a.den := by positivity
    rw [div_div_eq_mul_div, le_div_iff₀ hL]
    have hd' : (a.den : ℚ) < 2 * (2 : ℚ) ^ ilog2 a.den := by
      rw [pow_succ] at hdq
      linarith
    have ha' : (a.num : ℚ) = a * a.den := (Rat.mul_den_eq_num a).symm
    have hlow : (2 : ℚ) ^ ilog2 a.num.natAbs ≤ a * (2 * (2 : ℚ) ^ ilog2 a.den) := by
      calc (2 : ℚ) ^ ilog2 a.num.natAbs ≤ a * a.den := by rw [← ha']; exact hnq
        _ ≤ a * (2 * (2 : ℚ) ^ ilog2 a.den) :=
            mul_le_mul_of_nonneg_left (le_of_lt hd') (le_of_lt ha)
    have h53 : (2 : ℚ) ^ (53 : ℕ) = 2 * (2 : ℚ) ^ (52 : ℕ) := by norm_num
    rw [h53]
    have hpos52 : (0 : ℚ) < (2 : ℚ) ^ (52 : ℕ) := by positivity
    nlinarith [mul_le_mul_of_nonneg_left hlow (le_of_lt hpos52)]
  unfold lastPlace
  split
  · rename_i hbig
    rw [zpow_add_one₀ (by norm_num), ← div_div]
    have h53 : (2 : ℚ) ^ (53 : ℕ) = (2 : ℚ) ^ (52 : ℕ) * 2 := by norm_num
    rw [h53] at hbig
    rw [le_div_iff₀ (by norm_num)]
    exact hbig
  · exact hbase

/-- The function `fl64` has relative error at most `2^-53`. -/
theorem fl64_rel (x : ℚ) : |fl64 x - x| ≤ (1 / 2 ^ (53 : ℕ)) * |x| := by
  unfold fl64
  by_cases hx : x = 0
  · simp [hx]
  · rw [if_neg hx]
    have ha : 0 < |x| := abs_pos.mpr hx
    have hp : (0 : ℚ) < (2 : ℚ) ^ lastPlace |x| := by positivity
    have hl := lastPlace_spec |x| ha
    have hr := roundHalfEven_err (|x| / (2 : ℚ) ^ lastPlace |x|)
    rw [abs_le] at hr
    obtain ⟨hr1, hr2⟩ := hr
    have hq : |x| / (2 : ℚ) ^ lastPlace |x| * (2 : ℚ) ^ lastPlace |x| = |x| := by
      field_simp
    have h52 : (2 : ℚ) ^ (52 : ℕ) * (2 : ℚ) ^ lastPlace |x| ≤ |x| := by
      rw [le_div_iff₀ hp] at hl
      exact hl
    have hup : ((roundHalfEven (|x| / (2 : ℚ) ^ lastPlace |x|) : ℤ) : ℚ) * (2 : ℚ) ^ lastPlace |x|
        - |x| ≤ (2 : ℚ) ^ lastPlace |x| / 2 := by
      nlinarith [mul_le_mul_of_nonneg_right hr2 (le_of_lt hp)]
    have hlo : -((2 : ℚ) ^ lastPlace |x| / 2) ≤
        ((roundHalfEven (|x| / (2 : ℚ) ^ lastPlace |x|) : ℤ) : ℚ) * (2 : ℚ) ^ lastPlace |x|
        - |x| := by
      nlinarith [mul_le_mul_of_nonneg_right hr1 (le_of_lt hp)]
    have hbound : (2 : ℚ) ^ lastPlace |x| / 2 ≤ (1 / 2 ^ (53 : ℕ)) * |x| := by
      have h53 : (2 : ℚ) ^ (53 : ℕ) = (2 : ℚ) ^ (52 : ℕ) * 2 := by norm_num
      rw [h53, one_div_mul_eq_div, le_div_iff₀ (by positivity)]
      nlinarith
    rw [abs_le]
    by_cases hneg : x < 0
    · rw [if_pos hneg]
      have hab : |x| = -x := abs_of_neg hneg
      rw [hab] at hup hlo hbound ⊢
      constructor <;> nlinarith
    · rw [if_neg hneg]
      have hab : |x| = x := abs_of_nonneg (not_lt.mp hneg)
      rw [hab] at hup hlo hbound ⊢
      constructor <;> nlinarith

/-- The standard model of rounded arithmetic: relative error at most `u`. -/
theorem rnd_bounds {rnd : ℚ → ℚ} {u : ℚ} (hr : ∀ x, |rnd x - x| ≤ u * |x|) (x : ℚ) :
    (0 ≤ x → x - u * x ≤ rnd x ∧ rnd x ≤ x + u * x) ∧
    (x ≤ 0 → x + u * x ≤ rnd x ∧ rnd x ≤ x - u * x) := by
  have h := hr x
  rw [abs_le] at h
  constructor
  · intro hx
    rw [abs_of_nonneg hx] at h
    constructor <;> linarith
  · intro hx
    rw [abs_of_nonpos hx] at h
    constructor <;> linarith

theorem tailOpacity_pos {rnd : ℚ → ℚ} {u : ℚ} (hu0 : 0 ≤ u) (hu : u ≤ 1 / 100)
    (hr : ∀ x, |rnd x - x| ≤ u * |x|) (p : Particle) (hop : 0 < p.opacity)
    (i : Nat) (hi : i < 20) : tailOpacity rnd p i > 0 := by
  unfold tailOpacity
  have hi' : (i : ℚ) ≤ 19 := by exact_mod_cast Nat.lt_succ_iff.mp hi
  have hi0 : (0 : ℚ) ≤ i := Nat.cast_nonneg i
  have hc : 0 ≤ p.opacity / 20 := by positivity
  obtain ⟨ha1, ha2⟩ := (rnd_bounds hr (p.opacity / 20)).1 hc
  have hcu : u * (p.opacity / 20) ≤ 1 / 100 * (p.opacity / 20) :=
    mul_le_mul_of_nonneg_right hu hc
  have hcu0 : 0 ≤ u * (p.opacity / 20) := mul_nonneg hu0 hc
  have ha0 : 0 ≤ rnd (p.opacity / 20) := by linarith
  have haU : rnd (p.opacity / 20) ≤ 101 / 100 * (p.opacity / 20) := by linarith
  have hb0 : 0 ≤ rnd (p.opacity / 20) * i := mul_nonneg ha0 hi0
  have hbU : rnd (p.opacity / 20) * i ≤ 101 / 100 * (p.opacity / 20) * 19 :=
    mul_le_mul haU hi' hi0 (by positivity)
  obtain ⟨_, hy2⟩ := (rnd_bounds hr (rnd (p.opacity / 20) * i)).1 hb0
  have hbu : u * (rnd (p.opacity / 20) * i) ≤ 1 / 100 * (rnd (p.opacity / 20) * i) :=
    mul_le_mul_of_nonneg_right hu hb0
  have hyU : rnd (rnd (p.opacity / 20) * i) < p.opacity := by linarith
  have hz : 0 < p.opacity - rnd (rnd (p.opacity / 20) * i) := by linarith
  obtain ⟨hz1, _⟩ := (rnd_bounds hr (p.opacity - rnd (rnd (p.opacity / 20) * i))).1
    (le_of_lt hz)
  have hzu : u * (p.opacity - rnd (rnd (p.opacity / 20) * i)) ≤
      1 / 100 * (p.opacity - rnd (rnd (p.opacity / 20) * i)) :=
    mul_le_mul_of_nonneg_right hu (le_of_lt hz)
  linarith

theorem tailOpacity_nonpos {rnd : ℚ → ℚ} {u : ℚ} (hu : u ≤ 1 / 100)
    (hr : ∀ x, |rnd x - x| ≤ u * |x|) (p : Particle) (hop : 0 < p.opacity)
    (i : Nat) (hi : 21 ≤ i) : ¬ (tailOpacity rnd p i > 0) := by
  unfold tailOpacity
  have hi' : (21 : ℚ) ≤ i := by exact_mod_cast hi
  have hi0 : (0 : ℚ) ≤ i := Nat.cast_nonneg i
  have hc : 0 ≤ p.opacity / 20 := by positivity
  obtain ⟨ha1, _⟩ := (rnd_bounds hr (p.opacity / 20)).1 hc
  have hcu : u * (p.opacity / 20) ≤ 1 / 100 * (p.opacity / 20) :=
    mul_le_mul_of_nonneg_right hu hc
  have haL : 99 / 100 * (p.opacity / 20) ≤ rnd (p.opacity / 20) := by linarith
  have ha0 : 0 ≤ rnd (p.opacity / 20) := by
    have : 0 ≤ 99 / 100 * (p.opacity / 20) := by positivity
    linarith
  have hb0 : 0 ≤ rnd (p.opacity / 20) * i := mul_nonneg ha0 hi0
  have hbL : 99 / 100 * (p.opacity / 20) * 21 ≤ rnd (p.opacity / 20) * i :=
    mul_le_mul haL hi' (by norm_num) ha0
  obtain ⟨hy1, _⟩ := (rnd_bounds hr (rnd (p.opacity / 20) * i)).1 hb0
  have hbu : u * (rnd (p.opacity / 20) * i) ≤ 1 / 100 * (rnd (p.opacity / 20) * i) :=
    mul_le_mul_of_nonneg_right hu hb0
  have hyL : p.opacity ≤ rnd (rnd (p.opacity / 20) * i) := by linarith
  have hz : p.opacity - rnd (rnd (p.opacity / 20) * i) ≤ 0 := by linarith
  obtain ⟨_, hz2⟩ := (rnd_bounds hr (p.opacity - rnd (rnd (p.opacity / 20) * i))).2 hz
  have hzu : 1 * (p.opacity - rnd (rnd (p.opacity / 20) * i)) ≤
      u * (p.opacity - rnd (rnd (p.opacity / 20) * i)) := by
    have h1 : u ≤ 1 := by linarith
    exact mul_le_mul_of_nonpos_right h1 hz
  linarith

theorem tail_eq {rnd : ℚ → ℚ} {u : ℚ} (hu0 : 0 ≤ u) (hu : u ≤ 1 / 100)
    (hr : ∀ x, |rnd x - x| ≤ u * |x|) (p : Particle) (hop : 0 < p.opacity) :
    (List.range 30).flatMap (tailStep rnd p) =
      (List.range 20).flatMap (tailSquare rnd p) ++ tailStep rnd p 20 := by
  have h30 : List.range 30 =
      List.range 20 ++ ([20] ++ (List.range 9).map (fun i => 21 + i)) := by
    decide
  rw [h30, List.flatMap_append, List.flatMap_append]
  have ha : (List.range 20).flatMap (tailStep rnd p) =
      (List.range 20).flatMap (tailSquare rnd p) := by
    apply List.flatMap_congr
    intro i hi
    unfold tailStep
    rw [if_pos (tailOpacity_pos hu0 hu hr p hop i (List.mem_range.mp hi))]
  have hb : ((List.range 9).map (fun i => 21 + i)).flatMap (tailStep rnd p) = [] := by
    rw [List.flatMap_eq_nil_iff]
    intro i hi
    obtain ⟨j, _, rfl⟩ := List.mem_map.mp hi
    unfold tailStep
    rw [if_neg (tailOpacity_nonpos hu hr p hop (21 + j) (Nat.le_add_right 21 j))]
  rw [ha, hb, List.append_nil]
  simp

theorem tailOpacity_exact (p : Particle) : tailOpacity (fun x => x) p 20 = 0 := by
  unfold tailOpacity
  ring

/-! ## Frame loop lemmas -/

theorem loopInv_animate_none (s : Loop) (hp : s.pending = []) : LoopInv (animate s) := by
  right
  refine ⟨s.lastHandle + 1, Nat.succ_ne_zero _, rfl, ?_⟩
  simp [animate, requestAnimationFrame, hp]

theorem loopInv_start {s : Loop} (h : LoopInv s) : LoopInv (start s) := by
  rcases h with ⟨h1, h2⟩ | ⟨h, h0, h1, h2⟩
  · have : start s = animate s := by simp [start, truthy, h1]
    rw [this]
    exact loopInv_animate_none s h2
  · have : start s = s := by simp [start, truthy, h1, h0]
    rw [this]
    exact Or.inr ⟨h, h0, h1, h2⟩

theorem stop_spec {s : Loop} (h : LoopInv s) :
    (stop s).animationId = none ∧ (stop s).pending = [] ∧
    (stop s).callbackRuns = s.callbackRuns := by
  rcases h with ⟨h1, h2⟩ | ⟨h, h0, h1, h2⟩
  · simp [stop, h1, h2]
  · simp [stop, h1, h2, truthy, h0, cancelAnimationFrame]

theorem loopInv_step {s : Loop} (h : LoopInv s) (e : LoopEvent) : LoopInv (lstep s e) := by
  cases e with
  | hidden =>
    obtain ⟨h1, h2, _⟩ := stop_spec h
    exact Or.inl ⟨h1, h2⟩
  | visible =>
    apply loopInv_start
    rcases h with ⟨h1, h2⟩ | ⟨h, h0, h1, h2⟩
    · exact Or.inl ⟨h1, h2⟩
    · exact Or.inr ⟨h, h0, h1, h2⟩
  | frame =>
    rcases h with ⟨h1, h2⟩ | ⟨h, h0, h1, h2⟩
    · left
      simp [lstep, h1, h2]
    · have : lstep s LoopEvent.frame =
          animate { s with pending := [], callbackRuns := s.callbackRuns + 1 } := by
        simp [lstep, h2]
      rw [this]
      exact loopInv_animate_none _ rfl

theorem loopInv_run {s : Loop} (h : LoopInv s) (evs : List LoopEvent) : LoopInv (lrun s evs) := by
  induction evs generalizing s with
  | nil => exact h
  | cons e evs ih => exact ih (loopInv_step h e)

theorem loopInv_init (h0 : Nat) : LoopInv (initLoop h0) :=
  loopInv_start (Or.inl ⟨rfl, rfl⟩)

/-- A stopped loop stays stopped, and runs no frame callback, while no `visible`
event arrives. -/
theorem quiet_run (evs : List LoopEvent) (s : Loop)
    (h1 : s.animationId = none) (h2 : s.pending = []) :
    (lrun s (evs.filter (fun e => e != LoopEvent.visible))).pending = [] ∧
    (lrun s (evs.filter (fun e => e != LoopEvent.visible))).callbackRuns = s.callbackRuns := by
  induction evs generalizing s with
  | nil => exact ⟨h2, rfl⟩
  | cons e evs ih =>
    cases e with
    | visible => simpa using ih s h1 h2
    | hidden =>
      have hs : lstep s LoopEvent.hidden = { s with isVisible := false } := by
        simp [lstep, stop, h1]
      have := ih { s with isVisible := false } h1 h2
      simpa [lrun, hs] using this
    | frame =>
      have hs : lstep s LoopEvent.frame = s := by
        cases s
        simp_all [lstep]
      have := ih s h1 h2
      simpa [lrun, hs] using this

/-! ## Debounce lemmas -/

theorem armed_of_idle {α : Type} (wait : Nat) (a : α) (s : Debounce α)
    (hc : s.calls = []) (ht : s.timers = []) (t : Nat) :
    Armed wait a (executedFunction wait a (advance t s)) ∧
    (executedFunction wait a (advance t s)).now = t := by
  have ha : advance t s = { s with now := t } := by
    simp [advance, ht, fire]
  rw [ha]
  refine ⟨⟨?_, s.lastId + 1, ?_, ?_⟩, ?_⟩
  · cases h : s.timeout <;> simp [executedFunction, setTimeout, clearTimeout, h, hc]
  · cases h : s.timeout <;> simp [executedFunction, setTimeout, clearTimeout, h]
  · cases h : s.timeout <;> simp [executedFunction, setTimeout, clearTimeout, h, ht]
  · cases h : s.timeout <;> simp [executedFunction, setTimeout, clearTimeout, h]

theorem armed_call {α : Type} (wait : Nat) (a : α) (s : Debounce α) (h : Armed wait a s)
    (c : Nat × α) (hg : c.1 < wait) :
    Armed wait c.2 (callAfter wait s c) ∧ (callAfter wait s c).now = s.now + c.1 := by
  obtain ⟨hc, id, hid, ht⟩ := h
  have ha : advance (s.now + c.1) s = { s with now := s.now + c.1 } := by
    have : ¬ (s.now + wait ≤ s.now + c.1) := by omega
    simp [advance, ht, fire, this]
  unfold callAfter
  rw [ha]
  refine ⟨⟨?_, s.lastId + 1, ?_, ?_⟩, ?_⟩ <;>
    simp [executedFunction, setTimeout, clearTimeout, hid, hc, ht]

theorem armed_burst {α : Type} (wait : Nat) (rest : List (Nat × α)) (a : α) (s : Debounce α)
    (h : Armed wait a s) (hg : ∀ c ∈ rest, c.1 < wait) :
    Armed wait (lastArgs a rest) (rest.foldl (callAfter wait) s) ∧
    (rest.foldl (callAfter wait) s).now = s.now + (rest.map Prod.fst).sum := by
  induction rest generalizing a s with
  | nil => exact ⟨h, by simp⟩
  | cons c rest ih =>
    obtain ⟨h1, h2⟩ := armed_call wait a s h c (hg c (List.mem_cons_self _ _))
    obtain ⟨h3, h4⟩ := ih c.2 (callAfter wait s c) h1
      (fun d hd => hg d (List.mem_cons_of_mem _ hd))
    refine ⟨h3, ?_⟩
    rw [List.foldl_cons, h4, h2]
    simp [Nat.add_assoc]

theorem armed_fires {α : Type} (wait : Nat) (a : α) (s : Debounce α) (h : Armed wait a s)
    (t : Nat) :
    (advance t s).calls = if s.now + wait ≤ t then [(s.now + wait, a)] else [] := by
  obtain ⟨hc, id, hid, ht⟩ := h
  by_cases hle : s.now + wait ≤ t
  · simp [advance, ht, fire, hle, later, clearTimeout, hid, hc]
  · simp [advance, ht, fire, hle, hc]

/-! ## Claims -/

/-- C1. Opacity is never negative: in every state reached from the constructor by
ticks and `allowComet` flips, with all random outcomes in `[0, 1)`, `opacity ≥ 0`;
and every `reset()` leaves `opacity = 0`. -/
theorem opacity_nonneg (cw ch : ℚ) (isInitialLoad : Bool) (r : Rng) (h : r.InUnit)
    (evs : List PEvent) :
    0 ≤ (prun (construct cw ch isInitialLoad r) evs).1.opacity ∧
    ∀ (p : Particle) (r' : Rng), (reset p r').1.opacity = 0 :=
  ⟨(opacityInv_reach cw ch isInitialLoad h evs).2.1, fun _ _ => rfl⟩

/-- C1, witness: canvas 1000 x 800, all draws `1/2`, two ticks around a flip. -/
theorem opacity_nonneg_witness :
    (Rng.const (1 / 2)).InUnit ∧
    (0 ≤ (prun (construct 1000 800 true (Rng.const (1 / 2)))
      [PEvent.tick, PEvent.enableComet, PEvent.tick]).1.opacity ∧
    ∀ (p : Particle) (r' : Rng), (reset p r').1.opacity = 0) :=
  ⟨const_inUnit, opacity_nonneg 1000 800 true (Rng.const (1 / 2)) const_inUnit
    [PEvent.tick, PEvent.enableComet, PEvent.tick]⟩

/-- C2, counterexample. With canvas 1000 x 800, initial load, threshold draw `0`
(threshold `0.2`) and all other draws `3/5` (delta `0.0014`), the 143rd tick is a
fade-in tick that leaves opacity `0.2002` above the threshold `0.2`. -/
theorem fadeIn_overshoot :
    (prun (construct 1000 800 true overshootRng) (List.replicate 142 PEvent.tick)).1.fadingIn
      = true ∧
    (prun (construct 1000 800 true overshootRng) (List.replicate 143 PEvent.tick)).1.opacity
      = 1001 / 5000 ∧
    (prun (construct 1000 800 true overshootRng) (List.replicate 143 PEvent.tick)).1.opacityThreshold
      = 1 / 5 ∧
    ¬ ((prun (construct 1000 800 true overshootRng) (List.replicate 143 PEvent.tick)).1.opacity
      ≤ (prun (construct 1000 800 true overshootRng)
          (List.replicate 143 PEvent.tick)).1.opacityThreshold) := by
  decide!

/-- C2, amended. In every reachable state opacity is at most
`opacityThreshold + opacityDelta`, and below `opacityThreshold` as long as the
particle is still fading in. -/
theorem opacity_le_threshold_add_delta (cw ch : ℚ) (isInitialLoad : Bool) (r : Rng)
    (h : r.InUnit) (evs : List PEvent) :
    (prun (construct cw ch isInitialLoad r) evs).1.opacity ≤
      (prun (construct cw ch isInitialLoad r) evs).1.opacityThreshold +
      (prun (construct cw ch isInitialLoad r) evs).1.opacityDelta ∧
    ((prun (construct cw ch isInitialLoad r) evs).1.fadingIn = true →
      (prun (construct cw ch isInitialLoad r) evs).1.opacity <
        (prun (construct cw ch isInitialLoad r) evs).1.opacityThreshold) :=
  ⟨le_of_lt (opacityInv_reach cw ch isInitialLoad h evs).2.2.2,
    (opacityInv_reach cw ch isInitialLoad h evs).2.2.1⟩

/-- C2, witness of the amended claim at the overshooting run. -/
theorem opacity_le_threshold_add_delta_witness :
    overshootRng.InUnit ∧
    ((prun (construct 1000 800 true overshootRng) (List.replicate 143 PEvent.tick)).1.opacity ≤
      (prun (construct 1000 800 true overshootRng)
        (List.replicate 143 PEvent.tick)).1.opacityThreshold +
      (prun (construct 1000 800 true overshootRng)
        (List.replicate 143 PEvent.tick)).1.opacityDelta ∧
    ((prun (construct 1000 800 true overshootRng)
        (List.replicate 143 PEvent.tick)).1.fadingIn = true →
      (prun (construct 1000 800 true overshootRng) (List.replicate 143 PEvent.tick)).1.opacity <
        (prun (construct 1000 800 true overshootRng)
          (List.replicate 143 PEvent.tick)).1.opacityThreshold)) :=
  ⟨overshootRng_inUnit,
    opacity_le_threshold_add_delta 1000 800 true overshootRng overshootRng_inUnit
      (List.replicate 143 PEvent.tick)⟩

/-- C3, counterexample. (a) Canvas 1000 x 800, initial load, stream `respawnRng`: after
two ticks the particle has `fadingOut = true` and `opacity = 0` (it was just respawned
at x = 891); its next tick leaves `opacity = 0.0007` and `fadingOut = true`.
(b) The particle `zeroSteady` (`fadingIn = false`) with all draws `9/10` is reset by
its tick and respawned at x = 891, so `fadingOut` is `true` again after the tick. -/
theorem respawn_tick_counterexample :
    ((prun (construct 1000 800 true respawnRng) [PEvent.tick, PEvent.tick]).1.fadingOut = true ∧
     (prun (construct 1000 800 true respawnRng) [PEvent.tick, PEvent.tick]).1.opacity = 0 ∧
     (update (prun (construct 1000 800 true respawnRng) [PEvent.tick, PEvent.tick]).1
       (prun (construct 1000 800 true respawnRng) [PEvent.tick, PEvent.tick]).2).1.opacity
         = 7 / 10000 ∧
     (update (prun (construct 1000 800 true respawnRng) [PEvent.tick, PEvent.tick]).1
       (prun (construct 1000 800 true respawnRng) [PEvent.tick, PEvent.tick]).2).1.fadingOut
         = true) ∧
    (zeroSteady.fadingOut = true ∧ zeroSteady.opacity = 0 ∧
     (update zeroSteady (Rng.const (9 / 10))).1.fadingOut = true) := by
  decide!

/-- C3, amended. A particle with `fadingOut = true`, `fadingIn = false`, `opacity = 0`
and `opacityDelta ≥ 0` is reset by its next tick: afterwards `fadingIn = true` and
`opacity = 0`, and `fadingOut` is true exactly when the respawned position already
satisfies the fade-out trigger. -/
theorem update_at_zero (p : Particle) (r : Rng)
    (hout : p.fadingOut = true) (hin : p.fadingIn = false) (hop : p.opacity = 0)
    (hd : 0 ≤ p.opacityDelta) :
    updateResets p = true ∧
    (update p r).1.fadingIn = true ∧ (update p r).1.opacity = 0 ∧
    (update p r).1.fadingOut =
      (decide ((update p r).1.x > (update p r).1.canvasWidth - (update p r).1.canvasWidth / 4)
        || decide ((update p r).1.y < 0)) := by
  have hf : fadeInStep (move p) = move p := by
    simp [fadeInStep, move, hin]
  have ho : (move p).fadingOut = true := hout
  have hle : (move p).opacity - (move p).opacityDelta / 2 ≤ 0 := by
    show p.opacity - p.opacityDelta / 2 ≤ 0
    rw [hop]
    linarith
  have hl : leaves { move p with opacity := (move p).opacity - (move p).opacityDelta / 2 }
      = true := by
    simp [leaves, hle]
  have hu : (update p r).1 = triggerStep
      { (reset { move p with opacity := (move p).opacity - (move p).opacityDelta / 2 } r).1 with
        fadingOut := false } := by
    unfold update fadeOutStep
    rw [hf]
    dsimp only
    rw [if_pos ho, if_pos hl]
  refine ⟨?_, ?_, ?_, ?_⟩
  · unfold updateResets
    rw [hf]
    dsimp only
    rw [Bool.and_eq_true]
    exact ⟨ho, hl⟩
  · rw [hu]
    exact (triggerStep_proj _).1.trans rfl
  · rw [hu]
    exact (triggerStep_proj _).2.1.trans rfl
  · rw [hu, triggerStep_fadingOut, (triggerStep_proj _).2.2.1, (triggerStep_proj _).2.2.2.1,
      (triggerStep_proj _).2.2.2.2]
    exact Bool.false_or _

/-- C3, witness of the amended claim at `zeroSteady` with all draws `9/10`. -/
theorem update_at_zero_witness :
    zeroSteady.fadingOut = true ∧ zeroSteady.fadingIn = false ∧ zeroSteady.opacity = 0 ∧
    0 ≤ zeroSteady.opacityDelta ∧
    (updateResets zeroSteady = true ∧
    (update zeroSteady (Rng.const (9 / 10))).1.fadingIn = true ∧
    (update zeroSteady (Rng.const (9 / 10))).1.opacity = 0 ∧
    (update zeroSteady (Rng.const (9 / 10))).1.fadingOut =
      (decide ((update zeroSteady (Rng.const (9 / 10))).1.x >
          (update zeroSteady (Rng.const (9 / 10))).1.canvasWidth -
            (update zeroSteady (Rng.const (9 / 10))).1.canvasWidth / 4)
        || decide ((update zeroSteady (Rng.const (9 / 10))).1.y < 0))) :=
  ⟨rfl, rfl, rfl, by decide!,
    update_at_zero zeroSteady (Rng.const (9 / 10)) rfl rfl rfl (by decide!)⟩

/-- C4. In every state reached from the constructor `isGiant` and `isComet` are not
both true, for every random stream; every `reset()` yields such a state; and a
`reset()` with `allowComet = false` yields `isComet = false`. -/
theorem kind_exclusive (cw ch : ℚ) (isInitialLoad : Bool) (r : Rng) (evs : List PEvent)
    (p : Particle) (r' : Rng) :
    ¬ ((prun (construct cw ch isInitialLoad r) evs).1.isGiant = true ∧
       (prun (construct cw ch isInitialLoad r) evs).1.isComet = true) ∧
    ¬ ((reset p r').1.isGiant = true ∧ (reset p r').1.isComet = true) ∧
    (reset { p with allowComet := false } r').1.isComet = false ∧
    (kind (reset { p with allowComet := false } r').1 = Kind.giant ∨
     kind (reset { p with allowComet := false } r').1 = Kind.normal) := by
  refine ⟨kindInv_prun evs _ (kindInv_reset _ r), kindInv_reset p r', ?_, ?_⟩
  · rw [(reset_kind _ r').2]
    simp
  · have hc : (reset { p with allowComet := false } r').1.isComet = false := by
      rw [(reset_kind _ r').2]
      simp
    unfold kind
    rw [hc]
    cases (reset { p with allowComet := false } r').1.isGiant <;> simp

/-- C5. After every `reset()` with random outcomes in `[0, 1)` (and
`baseSpeed = 0.05`), `dx > 0` and `dy ≤ 0`. -/
theorem reset_velocity (p : Particle) (r : Rng) (h : r.InUnit) :
    (reset p r).1.dx > 0 ∧ (reset p r).1.dy ≤ 0 :=
  ⟨(reset_ranges p h).1, le_of_lt (reset_ranges p h).2.1⟩

/-- C5, witness: a comet-enabled reset with all draws `1/2`. -/
theorem reset_velocity_witness :
    (Rng.const (1 / 2)).InUnit ∧
    ((reset (blank 1000 800 false) (Rng.const (1 / 2))).1.dx > 0 ∧
     (reset (blank 1000 800 false) (Rng.const (1 / 2))).1.dy ≤ 0) :=
  ⟨const_inUnit, reset_velocity (blank 1000 800 false) (Rng.const (1 / 2)) const_inUnit⟩

/-- C10, counterexample. Canvas 1000 x 800, initial load, x draw `9/10` (x = 891),
other draws `3/5`: after the first tick the particle is fading out and still fading
in; the second tick does not reset it and raises opacity from `0.0014` to `0.0021`. -/
theorem fadeOut_not_decreasing :
    (prun (construct 1000 800 true rightQuarterRng) [PEvent.tick]).1.fadingOut = true ∧
    updateResets (prun (construct 1000 800 true rightQuarterRng) [PEvent.tick]).1 = false ∧
    (prun (construct 1000 800 true rightQuarterRng) [PEvent.tick]).1.opacity = 7 / 5000 ∧
    (update (prun (construct 1000 800 true rightQuarterRng) [PEvent.tick]).1
      (prun (construct 1000 800 true rightQuarterRng) [PEvent.tick]).2).1.opacity = 21 / 10000 ∧
    ¬ ((update (prun (construct 1000 800 true rightQuarterRng) [PEvent.tick]).1
        (prun (construct 1000 800 true rightQuarterRng) [PEvent.tick]).2).1.opacity ≤
      (prun (construct 1000 800 true rightQuarterRng) [PEvent.tick]).1.opacity) := by
  decide!

/-- C10, amended. In every reachable state with `fadingOut = true` and
`fadingIn = false`, a tick that does not reset the particle lowers opacity by
`opacityDelta / 2`, so opacity does not grow. -/
theorem fadeOut_decreases (cw ch : ℚ) (isInitialLoad : Bool) (r : Rng) (h : r.InUnit)
    (evs : List PEvent)
    (hout : (prun (construct cw ch isInitialLoad r) evs).1.fadingOut = true)
    (hin : (prun (construct cw ch isInitialLoad r) evs).1.fadingIn = false)
    (hres : updateResets (prun (construct cw ch isInitialLoad r) evs).1 = false) :
    (update (prun (construct cw ch isInitialLoad r) evs).1
        (prun (construct cw ch isInitialLoad r) evs).2).1.opacity =
      (prun (construct cw ch isInitialLoad r) evs).1.opacity -
        (prun (construct cw ch isInitialLoad r) evs).1.opacityDelta / 2 ∧
    (update (prun (construct cw ch isInitialLoad r) evs).1
        (prun (construct cw ch isInitialLoad r) evs).2).1.opacity ≤
      (prun (construct cw ch isInitialLoad r) evs).1.opacity := by
  have hd := (opacityInv_reach cw ch isInitialLoad h evs).1
  have he := update_fadeOut_only _ (prun (construct cw ch isInitialLoad r) evs).2 hout hin hres
  exact ⟨he, by rw [he]; linarith⟩

/-- C10, witness: after 143 ticks of the `steadyRng` run the particle has finished
fading in (opacity `0.2002`), has just started fading out, and its next tick does
not reset it. -/
theorem fadeOut_decreases_witness :
    steadyRng.InUnit ∧
    (prun (construct 1000 800 true steadyRng) (List.replicate 143 PEvent.tick)).1.fadingOut
      = true ∧
    (prun (construct 1000 800 true steadyRng) (List.replicate 143 PEvent.tick)).1.fadingIn
      = false ∧
    updateResets (prun (construct 1000 800 true steadyRng)
      (List.replicate 143 PEvent.tick)).1 = false ∧
    ((update (prun (construct 1000 800 true steadyRng) (List.replicate 143 PEvent.tick)).1
        (prun (construct 1000 800 true steadyRng) (List.replicate 143 PEvent.tick)).2).1.opacity =
      (prun (construct 1000 800 true steadyRng) (List.replicate 143 PEvent.tick)).1.opacity -
        (prun (construct 1000 800 true steadyRng)
          (List.replicate 143 PEvent.tick)).1.opacityDelta / 2 ∧
    (update (prun (construct 1000 800 true steadyRng) (List.replicate 143 PEvent.tick)).1
        (prun (construct 1000 800 true steadyRng) (List.replicate 143 PEvent.tick)).2).1.opacity ≤
      (prun (construct 1000 800 true steadyRng) (List.replicate 143 PEvent.tick)).1.opacity) := by
  have h1 : (prun (construct 1000 800 true steadyRng)
      (List.replicate 143 PEvent.tick)).1.fadingOut = true := by decide!
  have h2 : (prun (construct 1000 800 true steadyRng)
      (List.replicate 143 PEvent.tick)).1.fadingIn = false := by decide!
  have h3 : updateResets (prun (construct 1000 800 true steadyRng)
      (List.replicate 143 PEvent.tick)).1 = false := by decide!
  exact ⟨steadyRng_inUnit, h1, h2, h3,
    fadeOut_decreases 1000 800 true steadyRng steadyRng_inUnit (List.replicate 143 PEvent.tick)
      h1 h2 h3⟩

/-- C6, counterexample. In binary64 arithmetic the comet with opacity `0.055` gets a
tail square at `i = 20`: the rounded quotient `opacity / 20` times 20 is one unit in
the last place below `opacity`, so round 20 of the loop emits a fill style with alpha
`2^-57` and a square at `(95, 103)`, and `draw()` makes 21 `fillRect` calls. -/
theorem draw_comet_extra_square :
    faintComet.isGiant = false ∧ faintComet.isComet = true ∧ 0 < faintComet.opacity ∧
    fl64 faintComet.opacity = faintComet.opacity ∧
    tailStep fl64 faintComet 20 =
      [CanvasCall.fillStyle colorComet (1 / 144115188075855872),
       CanvasCall.fillRect 95 103 2 2] ∧
    ((draw fl64 faintComet []).2.filter CanvasCall.isFillRect).length = 21 := by
  decide!

/-- C6, amended. Let every operation be rounded with relative error at most
`u ≤ 1/100` (binary64 has `u = 2^-53`, exact arithmetic `u = 0`). For a comet with
positive opacity `draw()` appends: `beginPath`, the comet fill style at the current
opacity, the circle of radius `1.5` at `(x, y)`, then for `i = 0, …, 19` in order the
fill style with alpha `opacity − (opacity/20)·i` and the 2 x 2 square at
`(x − (dx/4)·i, y − (dy/4)·i − 2)`, then round `i = 20`, which emits its square or
nothing, nothing for `i = 21, …, 29`, then `closePath` and `fill`; in exact
arithmetic round `i = 20` emits nothing; and `draw()` returns the particle
unchanged. -/
theorem draw_comet (rnd : ℚ → ℚ) (u : ℚ) (hu0 : 0 ≤ u) (hu : u ≤ 1 / 100)
    (hr : ∀ x, |rnd x - x| ≤ u * |x|) (p : Particle) (ctx : List CanvasCall)
    (hg : p.isGiant = false) (hc : p.isComet = true) (hop : 0 < p.opacity) :
    (draw rnd p ctx).1 = p ∧
    (draw rnd p ctx).2 = ctx ++ [CanvasCall.beginPath] ++
      ([CanvasCall.fillStyle colorComet p.opacity, CanvasCall.arc p.x p.y (3 / 2)] ++
        ((List.range 20).flatMap (tailSquare rnd p) ++ tailStep rnd p 20)) ++
      [CanvasCall.closePath, CanvasCall.fill] ∧
    (tailStep rnd p 20 = tailSquare rnd p 20 ∨ tailStep rnd p 20 = []) ∧
    (∀ i, 21 ≤ i → tailStep rnd p i = []) ∧
    tailStep (fun x => x) p 20 = [] := by
  refine ⟨rfl, ?_, ?_, ?_, ?_⟩
  · simp only [draw, hg, hc, if_true, Bool.false_eq_true, if_false, tail_eq hu0 hu hr p hop]
  · unfold tailStep
    split
    · exact Or.inl rfl
    · exact Or.inr rfl
  · intro i hi
    unfold tailStep
    rw [if_neg (tailOpacity_nonpos hu hr p hop i hi)]
  · unfold tailStep
    rw [tailOpacity_exact]
    simp

/-- C6, witness: in binary64 arithmetic the end-to-end comet renders the circle at
`(100, 100)` and the squares at `(100 − 0.25·i, 100 + 0.25·i − 2)` for `i = 0, …, 19`,
and nothing at `i = 20`. -/
theorem draw_comet_witness :
    ((0 : ℚ) ≤ 1 / 2 ^ (53 : ℕ) ∧ (1 : ℚ) / 2 ^ (53 : ℕ) ≤ 1 / 100 ∧
      (∀ x, |fl64 x - x| ≤ (1 / 2 ^ (53 : ℕ)) * |x|) ∧
      exampleComet.isGiant = false ∧ exampleComet.isComet = true ∧ 0 < exampleComet.opacity) ∧
    ((draw fl64 exampleComet []).1 = exampleComet ∧
    (draw fl64 exampleComet []).2 = [] ++ [CanvasCall.beginPath] ++
      ([CanvasCall.fillStyle colorComet exampleComet.opacity,
        CanvasCall.arc exampleComet.x exampleComet.y (3 / 2)] ++
        ((List.range 20).flatMap (tailSquare fl64 exampleComet) ++
          tailStep fl64 exampleComet 20)) ++
      [CanvasCall.closePath, CanvasCall.fill] ∧
    (tailStep fl64 exampleComet 20 = tailSquare fl64 exampleComet 20 ∨
      tailStep fl64 exampleComet 20 = []) ∧
    (∀ i, 21 ≤ i → tailStep fl64 exampleComet i = []) ∧
    tailStep (fun x => x) exampleComet 20 = []) ∧
    (draw fl64 exampleComet []).2 =
      [CanvasCall.beginPath, CanvasCall.fillStyle colorComet (1 / 2),
        CanvasCall.arc 100 100 (3 / 2)] ++
      (List.range 20).flatMap (fun i =>
        [CanvasCall.fillStyle colorComet
           (fl64 (1 / 2 - fl64 (3602879701896397 / 144115188075855872 * i))),
         CanvasCall.fillRect (100 - 1 / 4 * i) (100 + 1 / 4 * i - 2) 2 2]) ++
      [CanvasCall.closePath, CanvasCall.fill] :=
  ⟨⟨by norm_num, by norm_num, fl64_rel, rfl, rfl, by decide!⟩,
    draw_comet fl64 (1 / 2 ^ (53 : ℕ)) (by norm_num) (by norm_num) fl64_rel exampleComet []
      rfl rfl (by decide!),
    by decide!⟩

/-- C7. In every state reached from `init()` by `hidden`, `visible` and `frame` events:
at most one frame request is pending; after a `hidden` event no request is pending
and no frame callback runs as long as no `visible` event arrives; `start()` on the
running loop changes nothing, and after two `visible` events in a row exactly one
request is pending. -/
theorem frame_loop_single (h0 : Nat) (evs quiet : List LoopEvent) :
    (lrun (initLoop h0) evs).pending.length ≤ 1 ∧
    ((lrun (lstep (lrun (initLoop h0) evs) LoopEvent.hidden)
        (quiet.filter (fun e => e != LoopEvent.visible))).pending = [] ∧
     (lrun (lstep (lrun (initLoop h0) evs) LoopEvent.hidden)
        (quiet.filter (fun e => e != LoopEvent.visible))).callbackRuns =
       (lrun (initLoop h0) evs).callbackRuns) ∧
    start (lstep (lrun (initLoop h0) evs) LoopEvent.visible) =
      lstep (lrun (initLoop h0) evs) LoopEvent.visible ∧
    lstep (lstep (lrun (initLoop h0) evs) LoopEvent.visible) LoopEvent.visible =
      lstep (lrun (initLoop h0) evs) LoopEvent.visible ∧
    (lstep (lstep (lrun (initLoop h0) evs) LoopEvent.visible) LoopEvent.visible).pending.length
      = 1 := by
  have hinv := loopInv_run (loopInv_init h0) evs
  have hvis := loopInv_step hinv LoopEvent.visible
  have hrunning : ∃ h, h ≠ 0 ∧
      (lstep (lrun (initLoop h0) evs) LoopEvent.visible).animationId = some h ∧
      (lstep (lrun (initLoop h0) evs) LoopEvent.visible).pending = [h] := by
    rcases hinv with ⟨h1, h2⟩ | ⟨h, hne, h1, h2⟩
    · refine ⟨(lrun (initLoop h0) evs).lastHandle + 1, Nat.succ_ne_zero _, ?_, ?_⟩ <;>
        simp [lstep, start, truthy, h1, h2, animate, requestAnimationFrame]
    · refine ⟨h, hne, ?_, ?_⟩ <;> simp [lstep, start, truthy, h1, h2, hne]
  obtain ⟨h, hne, hid, hpend⟩ := hrunning
  have hvisible : (lstep (lrun (initLoop h0) evs) LoopEvent.visible).isVisible = true := by
    rcases hinv with ⟨h1, h2⟩ | ⟨h, hne, h1, h2⟩
    · simp [lstep, start, truthy, h1, animate, requestAnimationFrame]
    · simp [lstep, start, truthy, h1, hne]
  have hstart : start (lstep (lrun (initLoop h0) evs) LoopEvent.visible) =
      lstep (lrun (initLoop h0) evs) LoopEvent.visible := by
    simp [start, truthy, hid, hne]
  have htwice : lstep (lstep (lrun (initLoop h0) evs) LoopEvent.visible) LoopEvent.visible =
      lstep (lrun (initLoop h0) evs) LoopEvent.visible := by
    have e : ({ lstep (lrun (initLoop h0) evs) LoopEvent.visible with isVisible := true } : Loop) =
        lstep (lrun (initLoop h0) evs) LoopEvent.visible := by
      cases hq : lstep (lrun (initLoop h0) evs) LoopEvent.visible
      rw [hq] at hvisible
      simp_all
    show start { lstep (lrun (initLoop h0) evs) LoopEvent.visible with isVisible := true } = _
    rw [e, hstart]
  refine ⟨?_, ?_, hstart, htwice, ?_⟩
  · rcases hinv with ⟨_, h2⟩ | ⟨h, _, _, h2⟩ <;> simp [h2]
  · obtain ⟨s1, s2, s3⟩ := stop_spec hinv
    have hq := quiet_run quiet { stop (lrun (initLoop h0) evs) with isVisible := false } s1 s2
    exact ⟨hq.1, hq.2.trans s3⟩
  · rw [htwice, hpend]
    rfl

/-- C8. Let the debounced function be called `n ≥ 1` times (`first`, then `rest`),
each later call less than `wait` ms after the one before. Then `func` has not run
when the last call returns; once the clock has reached `wait` ms after the last
call `func` has run exactly once, at that time and with the arguments of the last
call, and before that it has not run; so the resize handler has recreated the
particles once, from the viewport read at that time. -/
theorem debounce_burst {α : Type} (wait t0 id0 : Nat) (first : Nat × α)
    (rest : List (Nat × α)) (hg : ∀ c ∈ rest, c.1 < wait) (t : Nat)
    (viewport : Nat → Nat × Nat) :
    (rest.foldl (callAfter wait) (callAfter wait (debounce α t0 id0) first)).now =
      t0 + first.1 + (rest.map Prod.fst).sum ∧
    (rest.foldl (callAfter wait) (callAfter wait (debounce α t0 id0) first)).calls = [] ∧
    (advance t (rest.foldl (callAfter wait) (callAfter wait (debounce α t0 id0) first))).calls =
      (if t0 + first.1 + (rest.map Prod.fst).sum + wait ≤ t then
        [(t0 + first.1 + (rest.map Prod.fst).sum + wait, lastArgs first.2 rest)] else []) ∧
    recreations viewport
        (advance t (rest.foldl (callAfter wait) (callAfter wait (debounce α t0 id0) first))) =
      (if t0 + first.1 + (rest.map Prod.fst).sum + wait ≤ t then
        [viewport (t0 + first.1 + (rest.map Prod.fst).sum + wait)] else []) := by
  obtain ⟨h1, h2⟩ := armed_of_idle wait first.2 (debounce α t0 id0) rfl rfl (t0 + first.1)
  obtain ⟨h3, h4⟩ := armed_burst wait rest first.2 _ h1 hg
  have hnow : (rest.foldl (callAfter wait) (callAfter wait (debounce α t0 id0) first)).now =
      t0 + first.1 + (rest.map Prod.fst).sum := by
    have : callAfter wait (debounce α t0 id0) first =
        executedFunction wait first.2 (advance (t0 + first.1) (debounce α t0 id0)) := rfl
    rw [this, h4, h2]
  have h3' : Armed wait (lastArgs first.2 rest)
      (rest.foldl (callAfter wait) (callAfter wait (debounce α t0 id0) first)) := h3
  have hf := armed_fires wait _ _ h3' t
  rw [hnow] at hf
  refine ⟨hnow, h3'.1, hf, ?_⟩
  unfold recreations
  rw [hf]
  split <;> rfl

/-- C8, witness: ten resize events 20 ms apart with `wait = 200`, the first at time 5;
the last call is at 185 ms, `func` runs once at 385 ms with the last arguments, and
the canvas is sized from the viewport read at 385 ms. -/
theorem debounce_burst_witness :
    (∀ c ∈ resizeBurst, c.1 < 200) ∧
    ((resizeBurst.foldl (callAfter 200) (callAfter 200 (debounce Nat 0 0) (5, 0))).now =
      0 + (5, 0).1 + (resizeBurst.map Prod.fst).sum ∧
    (resizeBurst.foldl (callAfter 200) (callAfter 200 (debounce Nat 0 0) (5, 0))).calls = [] ∧
    (advance 1000
        (resizeBurst.foldl (callAfter 200) (callAfter 200 (debounce Nat 0 0) (5, 0)))).calls =
      (if 0 + (5, 0).1 + (resizeBurst.map Prod.fst).sum + 200 ≤ 1000 then
        [(0 + (5, 0).1 + (resizeBurst.map Prod.fst).sum + 200, lastArgs (5, 0).2 resizeBurst)]
       else []) ∧
    recreations (fun t => (1000 + t, 800))
        (advance 1000
          (resizeBurst.foldl (callAfter 200) (callAfter 200 (debounce Nat 0 0) (5, 0)))) =
      (if 0 + (5, 0).1 + (resizeBurst.map Prod.fst).sum + 200 ≤ 1000 then
        [(fun t => (1000 + t, 800)) (0 + (5, 0).1 + (resizeBurst.map Prod.fst).sum + 200)]
       else [])) ∧
    (advance 1000
        (resizeBurst.foldl (callAfter 200) (callAfter 200 (debounce Nat 0 0) (5, 0)))).calls =
      [(385, 9)] ∧
    recreations (fun t => (1000 + t, 800))
        (advance 1000
          (resizeBurst.foldl (callAfter 200) (callAfter 200 (debounce Nat 0 0) (5, 0)))) =
      [(1385, 800)] :=
  ⟨by decide, debounce_burst 200 0 0 (5, 0) resizeBurst (by decide) 1000
    (fun t => (1000 + t, 800)), by decide, by decide⟩

/-- C9, the code at the claimed counts. `chance(3)` is true exactly when
`k = floor(Math.random() * 1000)` is below 29, so for 29 of the 1000 values of `k`
(for `k = 28` but not for `k = 29`), and `chance(10)` exactly when `k` is below 99,
so for 99 values (for `k = 98` but not for `k = 99`); `reset()` takes `isGiant` from
`chance(3)` on its first draw and `isComet` from `chance(10)` on its second draw when
not giant and `allowComet`; with `allowComet = false` no draw makes a comet. -/
theorem chance_counts (p : Particle) (r : Rng) (u : ℚ) :
    chance 3 u = decide (Int.floor (u * 1000) < 29) ∧
    chance 10 u = decide (Int.floor (u * 1000) < 99) ∧
    chanceCount 3 = 29 ∧ chanceCount 10 = 99 ∧
    chance 3 (28 / 1000) = true ∧ chance 3 (29 / 1000) = false ∧
    chance 10 (98 / 1000) = true ∧ chance 10 (99 / 1000) = false ∧
    (reset p r).1.isGiant = chance 3 (r 0) ∧
    (reset p r).1.isComet = (!chance 3 (r 0) && p.allowComet && chance 10 (r 1)) ∧
    (reset { p with allowComet := false } r).1.isComet = false := by
  have h3 : chance 3 u = decide (Int.floor (u * 1000) < 29) := by
    unfold chance
    have e : (((Int.floor (u * 1000) + 1 : ℤ) : ℚ) < 10 * 3) ↔ Int.floor (u * 1000) < 29 := by
      have c : ((10 : ℚ) * 3) = ((30 : ℤ) : ℚ) := by norm_num
      rw [c, Int.cast_lt]
      omega
    exact decide_eq_decide.mpr e
  have h10 : chance 10 u = decide (Int.floor (u * 1000) < 99) := by
    unfold chance
    have e : (((Int.floor (u * 1000) + 1 : ℤ) : ℚ) < 10 * 10) ↔ Int.floor (u * 1000) < 99 := by
      have c : ((10 : ℚ) * 10) = ((100 : ℤ) : ℚ) := by norm_num
      rw [c, Int.cast_lt]
      omega
    exact decide_eq_decide.mpr e
  refine ⟨h3, h10, by decide!, by decide!, by decide!, by decide!, by decide!, by decide!,
    rfl, rfl, ?_⟩
  show (!chance 3 (r 0) && false && chance 10 (r 1)) = false
  simp

end Universe
